import Mathlib

/-!
Verification of the terminal-wordle scoring logic (`yorkle.c`) against its
specification.  The definitions below are a shallow embedding of the C
source: fixed-size character buffers become `List Char`, the in-place
`result` array becomes the returned `List letter_result_t`, and the two
loops of `compare_result` become the recursions `pass1` and `pass2`.
Definitions whose C counterpart lives in `yorkle.h` (not among the provided
sources) are modelled from the spec and marked as such.
-/

namespace Yorkle

/-- Modelled from the spec: `WORD_SIZE` is defined in `yorkle.h`, which is not
among the provided sources; the spec's glossary and the README fix it at 5. -/
def WORD_SIZE : Nat := 5

/-- Modelled from the spec: `MAX_NUM_ATTEMPTS` (the spec's `MAX_ATTEMPTS`) is
defined in `yorkle.h`; the spec's glossary and the README (seven stats values:
six win counts plus the loss count) fix it at 6. -/
def MAX_NUM_ATTEMPTS : Nat := 6

/-- Modelled from the spec: `letter_result_t` is declared in `yorkle.h`.  Its
numeric values are pinned by the source (`print_attempt_result` renders 0 as
incorrect, 1 as wrong place, anything else as in place, and `compare_result`
tests `result[i] != 2` for "not in place"): `LR_INCORRECT` = 0,
`LR_WRONG_PLACE` = 1, `LR_IN_PLACE` = 2. -/
inductive letter_result_t where
  | LR_INCORRECT
  | LR_WRONG_PLACE
  | LR_IN_PLACE
deriving DecidableEq

open letter_result_t

/-- First loop of `compare_result` (yorkle.c lines 244-252), fused with the
copy initialisation (lines 239-242): position by position, an exact match
writes `LR_IN_PLACE` into the result and overwrites the copy of the answer
with the consumption marker `'!'` (line 247); otherwise the result gets
`LR_INCORRECT`, the copied answer letter is kept, and `out` is cleared to 0
(modelled as `false`).  Returns (result, answer copy, out). -/
def pass1 : List Char → List Char → List letter_result_t × List Char × Bool
  | a :: as, g :: gs =>
    let p := pass1 as gs
    if g = a then (LR_IN_PLACE :: p.1, '!' :: p.2.1, p.2.2)
    else (LR_INCORRECT :: p.1, a :: p.2.1, false)
  | _, _ => ([], [], true)

/-- Inner loop of the second pass (yorkle.c lines 255-261): scan the copied
answer left to right for the guessed letter `g`; on the first occurrence,
overwrite it with the consumption marker `'!'` and report success, otherwise
report failure. -/
def scan_consume (g : Char) : List Char → Option (List Char)
  | [] => none
  | c :: cs =>
    if g = c then some ('!' :: cs)
    else (scan_consume g cs).map (fun cs2 => c :: cs2)

/-- Second loop of `compare_result` (yorkle.c lines 254-262), over the guess
letters paired with their pass-1 verdicts.  The test `result[i] != 2` does not
depend on the inner index `j`, so it is hoisted out of the scan: for a
position not already `LR_IN_PLACE`, a successful scan writes
`LR_WRONG_PLACE` and consumes the matched copy position; otherwise the pass-1
verdict is left in place.  Returns (result, final copy). -/
def pass2 : List (Char × letter_result_t) → List Char → List letter_result_t × List Char
  | [], copy => ([], copy)
  | (g, r) :: rest, copy =>
    if r ≠ LR_IN_PLACE then
      match scan_consume g copy with
      | some copy2 => (LR_WRONG_PLACE :: (pass2 rest copy2).1, (pass2 rest copy2).2)
      | none => (r :: (pass2 rest copy).1, (pass2 rest copy).2)
    else (r :: (pass2 rest copy).1, (pass2 rest copy).2)

/-- `compare_result` (yorkle.c lines 235-265) over equal-length character
lists: the filled result array is the first component, the returned `int`
(non-zero iff every letter matched in place) is the second. -/
def compare_result (todays_answer attempt : List Char) : List letter_result_t × Bool :=
  ((pass2 (attempt.zip (pass1 todays_answer attempt).1)
      (pass1 todays_answer attempt).2.1).1,
   (pass1 todays_answer attempt).2.2)

/-- A single-byte lowercase letter, the alphabet of the game's words
(README: words are listed using lower-case letters). -/
def lower_char (c : Char) : Bool := 'a' ≤ c && c ≤ 'z'

/-- Modelled from the spec (§4.1, pass 1): the verdict written for each
position by the exact-match pass — Correct (`LR_IN_PLACE`) on an exact match,
otherwise a placeholder Absent verdict awaiting pass 2. -/
def spec_pass1_verdicts (secret guess : List Char) : List letter_result_t :=
  (secret.zip guess).map (fun p => if p.2 = p.1 then LR_IN_PLACE else LR_INCORRECT)

/-- Modelled from the spec (§4.1, pass 1): the consumption flags after the
exact-match pass — position `i` of the secret is consumed iff
`guess[i] = secret[i]`. -/
def spec_pass1_consumed (secret guess : List Char) : List Bool :=
  (secret.zip guess).map (fun p => decide (p.2 = p.1))

/-- Modelled from the spec (§4.1, pass 2 and tie-break rule): scan the secret
positions left to right; at the leftmost *unconsumed* position holding the
letter `g`, mark it consumed and report success; report failure when no
unconsumed matching position remains. -/
def spec_scan (g : Char) : List Char → List Bool → Option (List Bool)
  | s :: ss, c :: cs =>
    if c = false ∧ s = g then some (true :: cs)
    else (spec_scan g ss cs).map (fun cs2 => c :: cs2)
  | _, _ => none

/-- Modelled from the spec (§4.1, pass 2): each guess position not already
Correct is marked Present (`LR_WRONG_PLACE`) while consuming the leftmost
remaining unconsumed secret position holding the same letter, or Absent
(`LR_INCORRECT`) when no unconsumed matching position remains. -/
def spec_pass2 (secret : List Char) :
    List (Char × letter_result_t) → List Bool → List letter_result_t
  | [], _ => []
  | (g, r) :: rest, consumed =>
    if r = LR_IN_PLACE then r :: spec_pass2 secret rest consumed
    else
      match spec_scan g secret consumed with
      | some consumed2 => LR_WRONG_PLACE :: spec_pass2 secret rest consumed2
      | none => LR_INCORRECT :: spec_pass2 secret rest consumed

/-- Modelled from the spec (§4.1): the full two-pass duplicate-safe
comparison algorithm, stated with explicit consumption flags instead of the
source's in-place `'!'` markers. -/
def spec_compare (secret guess : List Char) : List letter_result_t :=
  spec_pass2 secret (guess.zip (spec_pass1_verdicts secret guess))
    (spec_pass1_consumed secret guess)

/-- The scratch copy of the secret as a function of the consumption flags:
a consumed position holds the marker `'!'`, an unconsumed one its original
letter.  Bridges the source's copy buffer to the spec model's flags. -/
def overlay : List Char → List Bool → List Char
  | s :: ss, c :: cs => (if c then '!' else s) :: overlay ss cs
  | _, _ => []

/-- The word list of `yorkle.h`'s `valid_word_list_t`: the C struct stores a
fixed array of `num_words` entries, modelled as the list of those entries. -/
structure valid_word_list_t where
  words : List (List Char)

/-- Modelled from the spec (§4.2): the two failure classes of
`validate(words, attempt) -> Result<Word, ValidationError>`. -/
inductive ValidationError where
  | WrongLength
  | NotInWordList
deriving DecidableEq

/-- `attempt_is_valid` (yorkle.c lines 175-189): the length test first
(line 176), then a linear scan comparing the attempt byte for byte
(`strcmp`, line 182) against each stored word.  No case normalization is
performed in this function. -/
def attempt_is_valid (valid_words : valid_word_list_t) (attempt : List Char) : Bool :=
  if attempt.length ≠ WORD_SIZE then false
  else if valid_words.words.any (fun w => decide (w = attempt)) then true
  else false

/-- `attempt_is_valid` with its two `return 0` sites labelled by the spec's
error classes: the failed length test (line 178) is `WrongLength`, the scan
falling through without a match (line 188) is `NotInWordList`; a successful
scan accepts the attempt exactly as given (the source performs no case
normalization here). -/
def attempt_validate (valid_words : valid_word_list_t) (attempt : List Char) :
    Except ValidationError (List Char) :=
  if attempt.length ≠ WORD_SIZE then Except.error ValidationError.WrongLength
  else if valid_words.words.any (fun w => decide (w = attempt)) then Except.ok attempt
  else Except.error ValidationError.NotInWordList

/-- `player_stats_t` of `yorkle.h`: an array of `MAX_NUM_ATTEMPTS` unsigned
win counters (modelled as the list of its entries) plus the unsigned count of
missed words. -/
structure player_stats_t where
  wins_per_num_attempts : List Nat
  num_missed_words : Nat
deriving DecidableEq

/-- One past the largest `unsigned int` value: the counters and the
`num_attempts` argument are 32-bit unsigned on the reference platform, so
their arithmetic is modulo `2 ^ 32`. -/
def UINT_MAX_SUCC : Nat := 2 ^ 32

/-- The array subscript `num_attempts - 1` of yorkle.c line 312, computed in
32-bit unsigned arithmetic: subtracting 1 from `num_attempts = 0` wraps
around to `2 ^ 32 - 1`. -/
def win_index (num_attempts : Nat) : Nat :=
  (num_attempts + (UINT_MAX_SUCC - 1)) % UINT_MAX_SUCC

/-- The stats update of `save_stats` (yorkle.c lines 308-313): a value of
`num_attempts` above `MAX_NUM_ATTEMPTS` increments the missed-words counter,
any other value increments `wins_per_num_attempts[num_attempts-1]`.  All
counters are unsigned, so increments wrap modulo `2 ^ 32`.  An out-of-bounds
subscript is an access outside the array with no defined result, modelled as
`none`. -/
def save_stats_update (stats : player_stats_t) (num_attempts : Nat) :
    Option player_stats_t :=
  if num_attempts > MAX_NUM_ATTEMPTS then
    some { stats with num_missed_words := (stats.num_missed_words + 1) % UINT_MAX_SUCC }
  else
    if h : win_index num_attempts < stats.wins_per_num_attempts.length then
      let counter := stats.wins_per_num_attempts.get ⟨win_index num_attempts, h⟩
      let wins2 := stats.wins_per_num_attempts.set (win_index num_attempts)
        ((counter + 1) % UINT_MAX_SUCC)
      some { stats with wins_per_num_attempts := wins2 }
    else none

/-- The return value of `save_stats` (yorkle.c lines 315-324) as a function
of whether `fopen(STATS_FILENAME, "w")` succeeded: the source never checks
the handle returned by `fopen` and ends with an unconditional `return 1`, so
the returned value is 1 no matter how the write went. -/
def save_stats_return (_fopen_succeeded : Bool) : Nat := 1

/-- The `wins` accumulator of `print_stats` (yorkle.c lines 346-351): the sum
of the per-attempt win counters. -/
def print_stats_wins (stats : player_stats_t) : Nat :=
  stats.wins_per_num_attempts.sum

/-- The `games` total of `print_stats` (yorkle.c line 353):
wins plus missed words. -/
def print_stats_games (stats : player_stats_t) : Nat :=
  print_stats_wins stats + stats.num_missed_words

/-- The win-rate computation `100.0 * wins / games` of `print_stats`
(yorkle.c line 355): an IEEE double division performed with no guard on
`games = 0`.  When `games = 0` then `wins = 0` as well and `0.0 / 0.0` is
NaN, modelled as `none`; a nonzero games count gives the exact rational value
of the quotient. -/
def print_stats_winRate (stats : player_stats_t) : Option ℚ :=
  if print_stats_games stats = 0 then none
  else some (100 * (print_stats_wins stats : ℚ) / (print_stats_games stats : ℚ))

/-- Unfolding equation for pass 1 at a matching position. -/
theorem pass1_cons_eq {a b : Char} (as bs : List Char) (h : b = a) :
    pass1 (a :: as) (b :: bs) =
      (LR_IN_PLACE :: (pass1 as bs).1, '!' :: (pass1 as bs).2.1, (pass1 as bs).2.2) := by
  simp [pass1, h]

/-- Unfolding equation for pass 1 at a mismatching position. -/
theorem pass1_cons_ne {a b : Char} (as bs : List Char) (h : ¬ b = a) :
    pass1 (a :: as) (b :: bs) =
      (LR_INCORRECT :: (pass1 as bs).1, a :: (pass1 as bs).2.1, false) := by
  simp [pass1, h]

/-- Unfolding equation for pass 2 at a position already Correct. -/
theorem pass2_cons_ip (g : Char) (rest : List (Char × letter_result_t)) (copy : List Char) :
    pass2 ((g, LR_IN_PLACE) :: rest) copy =
      (LR_IN_PLACE :: (pass2 rest copy).1, (pass2 rest copy).2) := by
  simp [pass2]

/-- Unfolding equation for pass 2 when the scan finds a consumable match. -/
theorem pass2_cons_some {g : Char} {r : letter_result_t} {copy copy2 : List Char}
    (rest : List (Char × letter_result_t)) (hr : r ≠ LR_IN_PLACE)
    (hscan : scan_consume g copy = some copy2) :
    pass2 ((g, r) :: rest) copy =
      (LR_WRONG_PLACE :: (pass2 rest copy2).1, (pass2 rest copy2).2) := by
  simp [pass2, hr, hscan]

/-- Unfolding equation for pass 2 when the scan finds no consumable match. -/
theorem pass2_cons_none {g : Char} {r : letter_result_t} {copy : List Char}
    (rest : List (Char × letter_result_t)) (hr : r ≠ LR_IN_PLACE)
    (hscan : scan_consume g copy = none) :
    pass2 ((g, r) :: rest) copy = (r :: (pass2 rest copy).1, (pass2 rest copy).2) := by
  simp [pass2, hr, hscan]

/-- Unfolding equation for the spec model's pass 2 at a Correct position. -/
theorem spec_pass2_cons_ip (s : List Char) (g : Char)
    (rest : List (Char × letter_result_t)) (c : List Bool) :
    spec_pass2 s ((g, LR_IN_PLACE) :: rest) c = LR_IN_PLACE :: spec_pass2 s rest c := by
  simp [spec_pass2]

/-- Unfolding equation for the spec model's pass 2: Present case. -/
theorem spec_pass2_cons_some {s : List Char} {g : Char} {r : letter_result_t}
    {c c2 : List Bool} (rest : List (Char × letter_result_t)) (hr : r ≠ LR_IN_PLACE)
    (hscan : spec_scan g s c = some c2) :
    spec_pass2 s ((g, r) :: rest) c = LR_WRONG_PLACE :: spec_pass2 s rest c2 := by
  simp [spec_pass2, hr, hscan]

/-- Unfolding equation for the spec model's pass 2: Absent case. -/
theorem spec_pass2_cons_none {s : List Char} {g : Char} {r : letter_result_t}
    {c : List Bool} (rest : List (Char × letter_result_t)) (hr : r ≠ LR_IN_PLACE)
    (hscan : spec_scan g s c = none) :
    spec_pass2 s ((g, r) :: rest) c = LR_INCORRECT :: spec_pass2 s rest c := by
  simp [spec_pass2, hr, hscan]

/-- The result component of pass 1 is the spec model's pass-1 verdict list. -/
theorem pass1_fst : ∀ s g : List Char, (pass1 s g).1 = spec_pass1_verdicts s g
  | [], g => by cases g <;> simp [pass1, spec_pass1_verdicts]
  | _ :: _, [] => by simp [pass1, spec_pass1_verdicts]
  | a :: as, b :: bs => by
    by_cases h : b = a
    · rw [pass1_cons_eq as bs h]
      simp [spec_pass1_verdicts, h, pass1_fst as bs, List.zip]
    · rw [pass1_cons_ne as bs h]
      simp [spec_pass1_verdicts, h, pass1_fst as bs, List.zip]

/-- The scratch copy produced by pass 1 is the secret overlaid with the spec
model's pass-1 consumption flags. -/
theorem pass1_copy : ∀ s g : List Char, (pass1 s g).2.1 = overlay s (spec_pass1_consumed s g)
  | [], g => by cases g <;> simp [pass1, spec_pass1_consumed, overlay]
  | _ :: _, [] => by simp [pass1, spec_pass1_consumed, overlay]
  | a :: as, b :: bs => by
    by_cases h : b = a
    · rw [pass1_cons_eq as bs h]
      simp [spec_pass1_consumed, overlay, h, pass1_copy as bs, List.zip]
    · rw [pass1_cons_ne as bs h]
      simp [spec_pass1_consumed, overlay, h, pass1_copy as bs, List.zip]

/-- Length of the spec model's pass-1 verdict list. -/
theorem spec_pass1_verdicts_length (s g : List Char) :
    (spec_pass1_verdicts s g).length = min s.length g.length := by
  simp [spec_pass1_verdicts]

/-- Length of the spec model's pass-1 consumption flags. -/
theorem spec_pass1_consumed_length (s g : List Char) :
    (spec_pass1_consumed s g).length = min s.length g.length := by
  simp [spec_pass1_consumed]

/-- Pass 1 never writes a Present verdict. -/
theorem spec_pass1_verdicts_no_wrong {s g : List Char} {r : letter_result_t}
    (hr : r ∈ spec_pass1_verdicts s g) : r ≠ LR_WRONG_PLACE := by
  simp only [spec_pass1_verdicts, List.mem_map] at hr
  obtain ⟨p, -, hp⟩ := hr
  by_cases h : p.2 = p.1 <;> simp [h] at hp <;> simp [← hp]

/-- A lowercase letter is never the consumption marker. -/
theorem lower_ne_bang {c : Char} (h : lower_char c = true) : c ≠ '!' := by
  intro hc
  subst hc
  simp [lower_char] at h

/-- A successful spec-model scan preserves the number of consumption flags. -/
theorem spec_scan_length : ∀ (g : Char) (s : List Char) (c c2 : List Bool),
    spec_scan g s c = some c2 → c2.length = c.length
  | g, s :: ss, c :: cs, c2 => by
    simp only [spec_scan]
    by_cases h : c = false ∧ s = g
    · rw [if_pos h]
      rintro h2
      cases h2
      simp
    · rw [if_neg h]
      rintro h2
      rw [Option.map_eq_some'] at h2
      obtain ⟨cs2, hscan, rfl⟩ := h2
      simp [spec_scan_length g ss cs cs2 hscan]
  | _, [], _, _ => by simp [spec_scan]
  | _, _ :: _, [], _ => by simp [spec_scan]

/-- The source's scan over the marked copy is the spec model's scan over the
unconsumed positions, as long as the guessed letter is not the marker
itself. -/
theorem scan_overlay : ∀ (g : Char) (s : List Char) (c : List Bool),
    g ≠ '!' → c.length = s.length →
    scan_consume g (overlay s c) = (spec_scan g s c).map (fun c2 => overlay s c2)
  | g, [], [] => by simp [overlay, scan_consume, spec_scan]
  | g, [], _ :: _ => by simp
  | g, _ :: _, [] => by simp [overlay, scan_consume, spec_scan]
  | g, sh :: st, ch :: ct => by
    intro hg hlen
    simp only [List.length_cons, Nat.add_right_cancel_iff] at hlen
    cases ch with
    | true =>
      rw [show overlay (sh :: st) (true :: ct) = '!' :: overlay st ct from rfl]
      simp only [scan_consume, spec_scan]
      rw [if_neg hg, if_neg (by simp)]
      rw [scan_overlay g st ct hg hlen]
      cases hscan : spec_scan g st ct <;> simp [overlay]
    | false =>
      rw [show overlay (sh :: st) (false :: ct) = sh :: overlay st ct from rfl]
      simp only [scan_consume, spec_scan]
      by_cases h : g = sh
      · rw [if_pos h, if_pos (show True ∧ sh = g from ⟨trivial, h.symm⟩)]
        simp [overlay]
      · rw [if_neg h, if_neg (by rintro ⟨-, h2⟩; exact h h2.symm)]
        rw [scan_overlay g st ct hg hlen]
        cases hscan : spec_scan g st ct <;> simp [overlay]

/-- Pass 2 of the source, run on the marked copy, computes exactly the spec
model's pass 2 on the consumption flags, provided no guessed letter is the
marker and no incoming verdict is already Present. -/
theorem pass2_overlay : ∀ (gr : List (Char × letter_result_t)) (s : List Char) (c : List Bool),
    c.length = s.length → (∀ p ∈ gr, p.1 ≠ '!') →
    (∀ p ∈ gr, p.2 ≠ LR_WRONG_PLACE) →
    (pass2 gr (overlay s c)).1 = spec_pass2 s gr c
  | [], s, c => by simp [pass2, spec_pass2]
  | (g, r) :: rest, s, c => by
    intro hlen hbang hnw
    have hgbang : g ≠ '!' := hbang (g, r) (List.mem_cons_self _ _)
    have hbang2 : ∀ p ∈ rest, p.1 ≠ '!' := fun p hp => hbang p (List.mem_cons_of_mem _ hp)
    have hnw2 : ∀ p ∈ rest, p.2 ≠ LR_WRONG_PLACE := fun p hp => hnw p (List.mem_cons_of_mem _ hp)
    by_cases hr : r = LR_IN_PLACE
    · subst hr
      rw [pass2_cons_ip, spec_pass2_cons_ip]
      rw [pass2_overlay rest s c hlen hbang2 hnw2]
    · have hrinc : r = LR_INCORRECT := by
        have := hnw (g, r) (List.mem_cons_self _ _)
        cases r <;> simp_all
      subst hrinc
      have hbridge := scan_overlay g s c hgbang hlen
      cases hscan : spec_scan g s c with
      | none =>
        rw [hscan] at hbridge
        simp only [Option.map_none'] at hbridge
        rw [pass2_cons_none rest hr hbridge, spec_pass2_cons_none rest hr hscan]
        rw [pass2_overlay rest s c hlen hbang2 hnw2]
      | some c2 =>
        rw [hscan] at hbridge
        simp only [Option.map_some'] at hbridge
        rw [pass2_cons_some rest hr hbridge, spec_pass2_cons_some rest hr hscan]
        have hlen2 : c2.length = s.length := (spec_scan_length g s c c2 hscan).trans hlen
        rw [pass2_overlay rest s c2 hlen2 hbang2 hnw2]

/-- Claim C2: `compare_result` on secret "bread" / guess "erase" yields
[Present, Correct, Present, Absent, Absent], and on secret "blood" /
guess "boron" yields [Correct, Present, Absent, Correct, Absent]. -/
theorem compare_result_fixtures :
    (compare_result ("bread".toList) ("erase".toList)).1 =
      [LR_WRONG_PLACE, LR_IN_PLACE, LR_WRONG_PLACE, LR_INCORRECT, LR_INCORRECT]
    ∧ (compare_result ("blood".toList) ("boron".toList)).1 =
      [LR_IN_PLACE, LR_WRONG_PLACE, LR_INCORRECT, LR_IN_PLACE, LR_INCORRECT] := by
  constructor <;> rfl

/-- Claim C3: for equal-length lowercase words, `compare_result` implements
the spec's two-pass algorithm: exact matches are marked Correct and consumed
in pass 1; pass 2 walks guess positions left to right, marking each position
not already Correct as Present while consuming the leftmost remaining
unconsumed secret position holding the same letter, or Absent when no
unconsumed matching position remains. -/
theorem compare_result_refines_spec (secret guess : List Char)
    (hs : secret.length = WORD_SIZE) (hg : guess.length = WORD_SIZE)
    (_hls : ∀ c ∈ secret, lower_char c = true)
    (hlg : ∀ c ∈ guess, lower_char c = true) :
    (compare_result secret guess).1 = spec_compare secret guess := by
  unfold compare_result spec_compare
  rw [pass1_fst, pass1_copy]
  apply pass2_overlay
  · rw [spec_pass1_consumed_length, hs, hg]
    simp
  · rintro ⟨a, b⟩ hp
    exact lower_ne_bang (hlg a (List.of_mem_zip hp).1)
  · rintro ⟨a, b⟩ hp
    exact spec_pass1_verdicts_no_wrong (List.of_mem_zip hp).2

/-- Witness for C3 at the second worked fixture. -/
theorem compare_result_refines_spec_witness :
    (compare_result ("blood".toList) ("boron".toList)).1 =
      spec_compare ("blood".toList) ("boron".toList) :=
  compare_result_refines_spec ("blood".toList) ("boron".toList)
    (by decide) (by decide) (by decide) (by decide)

/-- A successful source scan consumes exactly one occurrence of the guessed
letter: for any letter other than the marker, the count of that letter drops
by one exactly when it is the guessed letter. -/
theorem scan_consume_count : ∀ (g : Char) (copy copy2 : List Char),
    scan_consume g copy = some copy2 → ∀ L : Char, L ≠ '!' →
    copy.count L = copy2.count L + (if g = L then 1 else 0)
  | g, [], copy2 => by simp [scan_consume]
  | g, c :: cs, copy2 => by
    simp only [scan_consume]
    by_cases h : g = c
    · rw [if_pos h]
      intro heq L hL
      cases heq
      subst h
      simp [List.count_cons, Ne.symm hL]
    · rw [if_neg h]
      intro heq L hL
      rw [Option.map_eq_some'] at heq
      obtain ⟨cs2, hscan, rfl⟩ := heq
      have ih := scan_consume_count g cs cs2 hscan L hL
      simp only [List.count_cons, ih]
      omega

/-- Pass 2 keeps the lengths of the guess and the result in lockstep. -/
theorem pass2_length : ∀ (gr : List (Char × letter_result_t)) (copy : List Char),
    (pass2 gr copy).1.length = gr.length
  | [], copy => by simp [pass2]
  | (g, r) :: rest, copy => by
    by_cases hr : r = LR_IN_PLACE
    · subst hr
      rw [pass2_cons_ip]
      simp [pass2_length rest copy]
    · cases hscan : scan_consume g copy with
      | some copy2 =>
        rw [pass2_cons_some rest hr hscan]
        simp [pass2_length rest copy2]
      | none =>
        rw [pass2_cons_none rest hr hscan]
        simp [pass2_length rest copy]

/-- Pass 1 never writes a Present verdict. -/
theorem pass1_no_wrong {s g : List Char} {r : letter_result_t}
    (hr : r ∈ (pass1 s g).1) : r ≠ LR_WRONG_PLACE := by
  rw [pass1_fst] at hr
  exact spec_pass1_verdicts_no_wrong hr

/-- Counting bound for pass 2: the positions of a given letter `L` scoring
Correct or Present in the output are at most the positions of `L` already
Correct on entry plus the occurrences of `L` left in the copy — each new
Present verdict for `L` consumes one occurrence of `L` from the copy. -/
theorem pass2_count_le : ∀ (gr : List (Char × letter_result_t)) (copy : List Char) (L : Char),
    L ≠ '!' → (∀ p ∈ gr, p.2 ≠ LR_WRONG_PLACE) →
    ((gr.map Prod.fst).zip (pass2 gr copy).1).countP
        (fun p => decide (p.1 = L) && (decide (p.2 = LR_IN_PLACE) || decide (p.2 = LR_WRONG_PLACE)))
      ≤ gr.countP (fun p => decide (p.1 = L) && decide (p.2 = LR_IN_PLACE)) + copy.count L
  | [], copy, L => by simp [pass2]
  | (g, r) :: rest, copy, L => by
    intro hL hnw
    have hnw2 : ∀ p ∈ rest, p.2 ≠ LR_WRONG_PLACE :=
      fun p hp => hnw p (List.mem_cons_of_mem _ hp)
    by_cases hr : r = LR_IN_PLACE
    · subst hr
      rw [pass2_cons_ip]
      have ih := pass2_count_le rest copy L hL hnw2
      simp only [List.map_cons, List.zip_cons_cons, List.countP_cons]
      by_cases hgL : g = L <;> simp [hgL] <;> omega
    · cases hscan : scan_consume g copy with
      | some copy2 =>
        rw [pass2_cons_some rest hr hscan]
        have hcnt := scan_consume_count g copy copy2 hscan L hL
        have ih := pass2_count_le rest copy2 L hL hnw2
        simp only [List.map_cons, List.zip_cons_cons, List.countP_cons]
        by_cases hgL : g = L <;> simp [hgL, hr] at hcnt ⊢ <;> omega
      | none =>
        rw [pass2_cons_none rest hr hscan]
        have hrinc : r = LR_INCORRECT := by
          have := hnw (g, r) (List.mem_cons_self _ _)
          cases r <;> simp_all
        subst hrinc
        have ih := pass2_count_le rest copy L hL hnw2
        simp only [List.map_cons, List.zip_cons_cons, List.countP_cons]
        simp
        omega

/-- Counting identity for pass 1: for any letter `L` other than the marker,
the occurrences of `L` left in the copy plus the positions of `L` marked
Correct add up to the occurrences of `L` in the secret. -/
theorem pass1_count : ∀ (s g : List Char) (L : Char), L ≠ '!' → g.length = s.length →
    ((pass1 s g).2.1).count L
      + (g.zip (pass1 s g).1).countP (fun p => decide (p.1 = L) && decide (p.2 = LR_IN_PLACE))
    = s.count L
  | [], [], L => by simp [pass1]
  | [], _ :: _, L => by
    intro _ h
    simp at h
  | _ :: _, [], L => by
    intro _ h
    simp at h
  | a :: as, b :: bs, L => by
    intro hL hlen
    simp only [List.length_cons, Nat.add_right_cancel_iff] at hlen
    have ih := pass1_count as bs L hL hlen
    by_cases h : b = a
    · rw [pass1_cons_eq as bs h]
      subst h
      simp only [List.zip_cons_cons, List.countP_cons, List.count_cons]
      by_cases hbL : b = L <;> simp [hbL, Ne.symm hL] <;> omega
    · rw [pass1_cons_ne as bs h]
      simp only [List.zip_cons_cons, List.countP_cons, List.count_cons]
      by_cases haL : a = L <;> simp [haL, h] <;> omega

/-- Claim C1: for equal-length lowercase words, the verdicts of
`compare_result` score at most `WORD_SIZE` positions Correct-or-Present in
total, and for any letter `L` the positions whose guess letter is `L` scoring
Correct or Present never outnumber the occurrences of `L` in the secret. -/
theorem compare_result_letter_counts (secret guess : List Char) (L : Char)
    (hs : secret.length = WORD_SIZE) (hg : guess.length = WORD_SIZE)
    (_hls : ∀ c ∈ secret, lower_char c = true)
    (hlg : ∀ c ∈ guess, lower_char c = true) :
    ((compare_result secret guess).1.countP
        (fun r => decide (r = LR_IN_PLACE ∨ r = LR_WRONG_PLACE)) ≤ WORD_SIZE)
    ∧ ((guess.zip (compare_result secret guess).1).countP
        (fun p => decide (p.1 = L ∧ (p.2 = LR_IN_PLACE ∨ p.2 = LR_WRONG_PLACE)))
      ≤ secret.count L) := by
  have hr1len : (pass1 secret guess).1.length = guess.length := by
    rw [pass1_fst, spec_pass1_verdicts_length, hs, hg]
    simp
  constructor
  · have hle : (compare_result secret guess).1.countP
        (fun r => decide (r = LR_IN_PLACE ∨ r = LR_WRONG_PLACE))
        ≤ (compare_result secret guess).1.length := List.countP_le_length _
    have hlen : (compare_result secret guess).1.length = WORD_SIZE := by
      simp only [compare_result]
      rw [pass2_length, List.length_zip, hr1len, hg]
      simp
    omega
  · by_cases hL : L = '!'
    · subst hL
      rw [List.countP_eq_zero.mpr]
      · exact Nat.zero_le _
      · rintro ⟨a, b⟩ hp
        have hlow := lower_ne_bang (hlg a (List.of_mem_zip hp).1)
        simp [hlow]
    · have hnw : ∀ p ∈ guess.zip (pass1 secret guess).1, p.2 ≠ LR_WRONG_PLACE := by
        rintro ⟨a, b⟩ hp
        exact pass1_no_wrong (List.of_mem_zip hp).2
      have hmap : (guess.zip (pass1 secret guess).1).map Prod.fst = guess :=
        List.map_fst_zip _ _ (by simp [hr1len])
      have hkey := pass2_count_le (guess.zip (pass1 secret guess).1)
        (pass1 secret guess).2.1 L hL hnw
      rw [hmap] at hkey
      have hcnt := pass1_count secret guess L hL (by rw [hs, hg])
      simp only [compare_result, Bool.decide_and, Bool.decide_or]
      omega

/-- The `out` flag of pass 1 ends up non-zero exactly when the guess equals
the secret (for equal-length inputs). -/
theorem pass1_out_iff_eq : ∀ s g : List Char, g.length = s.length →
    ((pass1 s g).2.2 = true ↔ g = s)
  | [], [], _ => by simp [pass1]
  | [], _ :: _, h => by simp at h
  | _ :: _, [], h => by simp at h
  | a :: as, b :: bs, h => by
    simp only [List.length_cons, Nat.add_right_cancel_iff] at h
    by_cases hb : b = a
    · subst hb
      rw [pass1_cons_eq as bs rfl]
      show (pass1 as bs).2.2 = true ↔ b :: bs = b :: as
      rw [pass1_out_iff_eq as bs h]
      simp
    · rw [pass1_cons_ne as bs hb]
      show false = true ↔ b :: bs = a :: as
      simp [hb]

/-- The `out` flag of pass 1 ends up non-zero exactly when every pass-1
verdict is Correct. -/
theorem pass1_out_iff_all : ∀ s g : List Char,
    ((pass1 s g).2.2 = true ↔ ∀ r ∈ (pass1 s g).1, r = LR_IN_PLACE)
  | [], g => by cases g <;> simp [pass1]
  | _ :: _, [] => by simp [pass1]
  | a :: as, b :: bs => by
    by_cases hb : b = a
    · rw [pass1_cons_eq as bs hb]
      show (pass1 as bs).2.2 = true ↔
        ∀ r ∈ LR_IN_PLACE :: (pass1 as bs).1, r = LR_IN_PLACE
      rw [pass1_out_iff_all as bs]
      simp
    · rw [pass1_cons_ne as bs hb]
      show false = true ↔ ∀ r ∈ LR_INCORRECT :: (pass1 as bs).1, r = LR_IN_PLACE
      simp

/-- Pass 2 neither creates nor destroys Correct verdicts: its output is
all-Correct exactly when its input verdicts are. -/
theorem pass2_all_ip_iff : ∀ (gr : List (Char × letter_result_t)) (copy : List Char),
    ((∀ r ∈ (pass2 gr copy).1, r = LR_IN_PLACE) ↔ ∀ p ∈ gr, p.2 = LR_IN_PLACE)
  | [], copy => by simp [pass2]
  | (g, r) :: rest, copy => by
    by_cases hr : r = LR_IN_PLACE
    · subst hr
      rw [pass2_cons_ip]
      show (∀ x ∈ LR_IN_PLACE :: (pass2 rest copy).1, x = LR_IN_PLACE) ↔ _
      simp only [List.forall_mem_cons]
      rw [pass2_all_ip_iff rest copy]
    · cases hscan : scan_consume g copy with
      | some copy2 =>
        rw [pass2_cons_some rest hr hscan]
        show (∀ x ∈ LR_WRONG_PLACE :: (pass2 rest copy2).1, x = LR_IN_PLACE) ↔ _
        simp only [List.forall_mem_cons]
        constructor
        · rintro ⟨h1, -⟩
          simp at h1
        · rintro ⟨h1, -⟩
          exact absurd h1 hr
      | none =>
        rw [pass2_cons_none rest hr hscan]
        show (∀ x ∈ r :: (pass2 rest copy).1, x = LR_IN_PLACE) ↔ _
        simp only [List.forall_mem_cons]
        constructor
        · rintro ⟨h1, -⟩
          exact absurd h1 hr
        · rintro ⟨h1, -⟩
          exact absurd h1 hr

/-- Transport an all-Correct statement across zipping with the guess. -/
theorem forall_snd_zip_iff {l1 : List Char} {l2 : List letter_result_t}
    (h : l2.length ≤ l1.length) :
    (∀ p ∈ l1.zip l2, p.2 = LR_IN_PLACE) ↔ ∀ r ∈ l2, r = LR_IN_PLACE := by
  constructor
  · intro hall r hr
    rw [← List.map_snd_zip l1 l2 h] at hr
    obtain ⟨p, hp, rfl⟩ := List.mem_map.mp hr
    exact hall p hp
  · intro hall p hp
    obtain ⟨a, b⟩ := p
    exact hall b (List.of_mem_zip hp).2

/-- Claim C4: for equal-length lowercase words the return of `compare_result`
is non-zero exactly when the guess equals the secret, equivalently exactly
when every verdict is Correct; in particular a guess equal to the secret
yields all-Correct verdicts and a non-zero return. -/
theorem compare_result_full_match_iff (secret guess : List Char)
    (hs : secret.length = WORD_SIZE) (hg : guess.length = WORD_SIZE)
    (_hls : ∀ c ∈ secret, lower_char c = true)
    (_hlg : ∀ c ∈ guess, lower_char c = true) :
    ((compare_result secret guess).2 = true ↔ guess = secret)
    ∧ ((compare_result secret guess).2 = true ↔
        (compare_result secret guess).1.all (fun r => decide (r = LR_IN_PLACE)) = true)
    ∧ (compare_result secret secret).2 = true
    ∧ (compare_result secret secret).1.all (fun r => decide (r = LR_IN_PLACE)) = true := by
  have key : ∀ s2 g2 : List Char, g2.length = s2.length →
      (((pass1 s2 g2).2.2 = true ↔ g2 = s2)
       ∧ ((pass1 s2 g2).2.2 = true ↔
           (pass2 (g2.zip (pass1 s2 g2).1) (pass1 s2 g2).2.1).1.all
             (fun r => decide (r = LR_IN_PLACE)) = true)) := by
    intro s2 g2 hlen2
    have hr1len : (pass1 s2 g2).1.length = g2.length := by
      rw [pass1_fst, spec_pass1_verdicts_length, hlen2]
      simp
    refine ⟨pass1_out_iff_eq s2 g2 hlen2, ?_⟩
    calc (pass1 s2 g2).2.2 = true
        ↔ (∀ r ∈ (pass1 s2 g2).1, r = LR_IN_PLACE) := pass1_out_iff_all s2 g2
      _ ↔ (∀ p ∈ g2.zip (pass1 s2 g2).1, p.2 = LR_IN_PLACE) :=
          (forall_snd_zip_iff (le_of_eq hr1len)).symm
      _ ↔ (∀ r ∈ (pass2 (g2.zip (pass1 s2 g2).1) (pass1 s2 g2).2.1).1, r = LR_IN_PLACE) :=
          (pass2_all_ip_iff _ _).symm
      _ ↔ ((pass2 (g2.zip (pass1 s2 g2).1) (pass1 s2 g2).2.1).1.all
            (fun r => decide (r = LR_IN_PLACE)) = true) := by
          rw [List.all_eq_true]
          simp
  have hlen : guess.length = secret.length := by rw [hs, hg]
  have k1 := key secret guess hlen
  have k2 := key secret secret rfl
  simp only [compare_result]
  exact ⟨k1.1, k1.2, k2.1.mpr rfl, k2.2.mp (k2.1.mpr rfl)⟩

/-- Witness for C4 at the first worked fixture. -/
theorem compare_result_full_match_iff_witness :
    ((compare_result ("bread".toList) ("erase".toList)).2 = true ↔
        "erase".toList = "bread".toList)
    ∧ ((compare_result ("bread".toList) ("erase".toList)).2 = true ↔
        (compare_result ("bread".toList) ("erase".toList)).1.all
          (fun r => decide (r = LR_IN_PLACE)) = true)
    ∧ (compare_result ("bread".toList) ("bread".toList)).2 = true
    ∧ (compare_result ("bread".toList) ("bread".toList)).1.all
        (fun r => decide (r = LR_IN_PLACE)) = true :=
  compare_result_full_match_iff ("bread".toList) ("erase".toList)
    (by decide) (by decide) (by decide) (by decide)

/-- Claim C10: on equal-length inputs the result sequence is always totally
defined — `compare_result` assigns a verdict, one of the three members of
`letter_result_t`, to each of the `WORD_SIZE` positions, regardless of the
return value. -/
theorem compare_result_total (secret guess : List Char)
    (hs : secret.length = WORD_SIZE) (hg : guess.length = WORD_SIZE) :
    (compare_result secret guess).1.length = WORD_SIZE
    ∧ (compare_result secret guess).1.all
        (fun r => decide (r = LR_INCORRECT ∨ r = LR_WRONG_PLACE ∨ r = LR_IN_PLACE)) = true := by
  constructor
  · simp only [compare_result]
    rw [pass2_length, List.length_zip, pass1_fst, spec_pass1_verdicts_length, hs, hg]
    simp
  · rw [List.all_eq_true]
    intro r hr
    cases r <;> simp

/-- Witness for C10 at a mismatching fixture pair. -/
theorem compare_result_total_witness :
    (compare_result ("blood".toList) ("boron".toList)).1.length = WORD_SIZE
    ∧ (compare_result ("blood".toList) ("boron".toList)).1.all
        (fun r => decide (r = LR_INCORRECT ∨ r = LR_WRONG_PLACE ∨ r = LR_IN_PLACE)) = true :=
  compare_result_total ("blood".toList) ("boron".toList) (by decide) (by decide)

/-- Witness for C1 at the first worked fixture with the repeated letter
of the guess. -/
theorem compare_result_letter_counts_witness :
    ((compare_result ("bread".toList) ("erase".toList)).1.countP
        (fun r => decide (r = LR_IN_PLACE ∨ r = LR_WRONG_PLACE)) ≤ WORD_SIZE)
    ∧ ((("erase".toList).zip (compare_result ("bread".toList) ("erase".toList)).1).countP
        (fun p => decide (p.1 = 'e' ∧ (p.2 = LR_IN_PLACE ∨ p.2 = LR_WRONG_PLACE)))
      ≤ ("bread".toList).count 'e') :=
  compare_result_letter_counts ("bread".toList) ("erase".toList) 'e'
    (by decide) (by decide) (by decide) (by decide)

/-- Claim C5 is contradicted by the code: on the all-zero stats the played
count is 0, but the win-rate division `100.0 * wins / games` runs unguarded
with `games = 0`, so `0.0 / 0.0` yields an undefined value (NaN), not the
defined 0 the spec requires. -/
theorem print_stats_zero_games_undefined :
    print_stats_games { wins_per_num_attempts := [0, 0, 0, 0, 0, 0], num_missed_words := 0 } = 0
    ∧ print_stats_winRate { wins_per_num_attempts := [0, 0, 0, 0, 0, 0], num_missed_words := 0 } =
        none :=
  ⟨rfl, rfl⟩

/-- Counterexample to claim C6: "BREAD" has the right length and its
lowercase form "bread" is in the word list, yet the validator rejects it as
not in the word list — `attempt_is_valid` performs no case normalization. -/
theorem attempt_is_valid_case_counterexample :
    attempt_is_valid { words := ["bread".toList] } ("BREAD".toList) = false
    ∧ ("BREAD".toList).length = WORD_SIZE
    ∧ ("BREAD".toList).map Char.toLower = "bread".toList
    ∧ attempt_validate { words := ["bread".toList] } ("BREAD".toList) =
        Except.error ValidationError.NotInWordList := by
  refine ⟨rfl, rfl, by decide, rfl⟩

/-- Claim C6 amended: the validator rejects exactly when the length differs
from WORD_SIZE or the attempt *as given* is not listed (lowercasing happens
earlier, in `read_attempt`, not here); the length test comes first, so a
wrong-length attempt is classified `WrongLength` regardless of membership, a
correct-length non-member — including a mere case-variant of a listed
word — is classified `NotInWordList`, and a listed word is accepted
unchanged. -/
theorem attempt_is_valid_characterization (valid_words : valid_word_list_t)
    (attempt : List Char) :
    (attempt_is_valid valid_words attempt = true ↔
      attempt.length = WORD_SIZE ∧ attempt ∈ valid_words.words)
    ∧ (attempt.length ≠ WORD_SIZE →
        attempt_validate valid_words attempt = Except.error ValidationError.WrongLength)
    ∧ (attempt.length = WORD_SIZE → attempt ∉ valid_words.words →
        attempt_validate valid_words attempt = Except.error ValidationError.NotInWordList)
    ∧ (attempt.length = WORD_SIZE → attempt ∈ valid_words.words →
        attempt_validate valid_words attempt = Except.ok attempt) := by
  refine ⟨?_, ?_, ?_, ?_⟩
  · simp only [attempt_is_valid]
    split_ifs with h1 h2
    · simp [h1]
    · push_neg at h1
      simp only [List.any_eq_true] at h2
      obtain ⟨w, hw, hweq⟩ := h2
      simp only [decide_eq_true_eq] at hweq
      subst hweq
      simp [h1, hw]
    · push_neg at h1
      simp only [h1, true_and]
      constructor
      · intro hfalse
        exact absurd hfalse (by simp)
      · intro hmem
        exact absurd (List.any_eq_true.mpr ⟨attempt, hmem, by simp⟩) h2
  · intro h1
    simp [attempt_validate, h1]
  · intro h1 hmem
    have h2 : ¬ (valid_words.words.any fun w => decide (w = attempt)) = true := by
      intro hc
      obtain ⟨w, hw, hweq⟩ := List.any_eq_true.mp hc
      simp only [decide_eq_true_eq] at hweq
      subst hweq
      exact hmem hw
    simp [attempt_validate, h1, h2]
  · intro h1 hmem
    have h2 : (valid_words.words.any fun w => decide (w = attempt)) = true :=
      List.any_eq_true.mpr ⟨attempt, hmem, by simp⟩
    simp [attempt_validate, h1, h2]

/-- Witness for the amended C6: a correct-length non-member is classified
`NotInWordList`, a short attempt `WrongLength`, a listed word accepted. -/
theorem attempt_is_valid_characterization_witness :
    attempt_validate { words := ["bread".toList] } ("breed".toList) =
      Except.error ValidationError.NotInWordList
    ∧ attempt_validate { words := ["bread".toList] } ("at".toList) =
      Except.error ValidationError.WrongLength
    ∧ attempt_validate { words := ["bread".toList] } ("bread".toList) =
      Except.ok ("bread".toList) :=
  ⟨(attempt_is_valid_characterization { words := ["bread".toList] } ("breed".toList)).2.2.1
      (by decide) (by decide),
   (attempt_is_valid_characterization { words := ["bread".toList] } ("at".toList)).2.1
      (by decide),
   (attempt_is_valid_characterization { words := ["bread".toList] } ("bread".toList)).2.2.2
      (by decide) (by decide)⟩

/-- Counterexample to claim C7: the win counters are C unsigned ints, so a
win recorded while the counter holds 2^32 - 1 wraps it to 0 instead of
incrementing it by exactly 1. -/
theorem save_stats_increment_wrap_counterexample :
    save_stats_update
        { wins_per_num_attempts := [4294967295, 0, 0, 0, 0, 0], num_missed_words := 0 } 1 =
      some { wins_per_num_attempts := [0, 0, 0, 0, 0, 0], num_missed_words := 0 }
    ∧ save_stats_update
        { wins_per_num_attempts := [4294967295, 0, 0, 0, 0, 0], num_missed_words := 0 } 1 ≠
      some { wins_per_num_attempts := [4294967295 + 1, 0, 0, 0, 0, 0], num_missed_words := 0 } := by
  refine ⟨rfl, by decide⟩

/-- In-bounds unfolding of the `save_stats` win branch. -/
theorem save_stats_update_win (stats : player_stats_t) (k : Nat)
    (hk : ¬ k > MAX_NUM_ATTEMPTS) (h : win_index k < stats.wins_per_num_attempts.length) :
    save_stats_update stats k = some
      { wins_per_num_attempts :=
          stats.wins_per_num_attempts.set (win_index k)
            ((stats.wins_per_num_attempts.getD (win_index k) 0 + 1) % UINT_MAX_SUCC),
        num_missed_words := stats.num_missed_words } := by
  simp only [save_stats_update, if_neg hk, dif_pos h]
  simp [List.getD_eq_getElem?_getD, List.getElem?_eq_getElem h]

/-- For winning attempt counts the unsigned subscript is the plain `k - 1`. -/
theorem win_index_eq (k : Nat) (hk1 : 1 ≤ k) (hk : k < UINT_MAX_SUCC) :
    win_index k = k - 1 := by
  simp only [win_index, UINT_MAX_SUCC] at *
  omega

/-- Claim C7 amended: recording a win at attempt count `k` with
`1 ≤ k ≤ MAX_NUM_ATTEMPTS` sets `wins[k-1]` to `(wins[k-1] + 1) mod 2^32` —
an increment by exactly 1 whenever the counter is below `2^32 - 1` — and
leaves every other win counter and the loss counter unchanged; recording a
loss (`k > MAX_NUM_ATTEMPTS`) sets the loss counter to
`(losses + 1) mod 2^32` and leaves every win counter unchanged. -/
theorem save_stats_update_effect (stats : player_stats_t) (k j : Nat)
    (hlen : stats.wins_per_num_attempts.length = MAX_NUM_ATTEMPTS) :
    (1 ≤ k → k ≤ MAX_NUM_ATTEMPTS →
      save_stats_update stats k = some
        { wins_per_num_attempts :=
            stats.wins_per_num_attempts.set (k - 1)
              ((stats.wins_per_num_attempts.getD (k - 1) 0 + 1) % UINT_MAX_SUCC),
          num_missed_words := stats.num_missed_words }
      ∧ (j ≠ k - 1 →
          (stats.wins_per_num_attempts.set (k - 1)
              ((stats.wins_per_num_attempts.getD (k - 1) 0 + 1) % UINT_MAX_SUCC))[j]? =
            stats.wins_per_num_attempts[j]?))
    ∧ (MAX_NUM_ATTEMPTS < k →
        save_stats_update stats k = some
          { wins_per_num_attempts := stats.wins_per_num_attempts,
            num_missed_words := (stats.num_missed_words + 1) % UINT_MAX_SUCC }) := by
  constructor
  · intro hk1 hk6
    have hklt : k < UINT_MAX_SUCC := by
      have : MAX_NUM_ATTEMPTS < UINT_MAX_SUCC := by decide
      omega
    have hwin : win_index k = k - 1 := win_index_eq k hk1 hklt
    have hnot : ¬ k > MAX_NUM_ATTEMPTS := by omega
    have hlt : win_index k < stats.wins_per_num_attempts.length := by
      rw [hwin, hlen]
      simp only [MAX_NUM_ATTEMPTS] at hk6 ⊢
      omega
    constructor
    · rw [save_stats_update_win stats k hnot hlt, hwin]
    · intro hj
      exact List.getElem?_set_ne (Ne.symm hj)
  · intro hk
    simp only [save_stats_update, if_pos hk]

/-- Witness for the amended C7: a win at attempt 2 bumps the second counter,
leaves the fifth counter and the loss count alone; a loss bumps only the
loss count. -/
theorem save_stats_update_effect_witness :
    save_stats_update
        { wins_per_num_attempts := [10, 20, 30, 40, 50, 60], num_missed_words := 7 } 2 =
      some { wins_per_num_attempts := [10, 21, 30, 40, 50, 60], num_missed_words := 7 }
    ∧ ([10, 21, 30, 40, 50, 60] : List Nat)[4]? = ([10, 20, 30, 40, 50, 60] : List Nat)[4]?
    ∧ save_stats_update
        { wins_per_num_attempts := [10, 20, 30, 40, 50, 60], num_missed_words := 7 } 9 =
      some { wins_per_num_attempts := [10, 20, 30, 40, 50, 60], num_missed_words := 8 } := by
  have h := (save_stats_update_effect ⟨[10, 20, 30, 40, 50, 60], 7⟩ 2 4 rfl).1
    (by decide) (by decide)
  have h3 := (save_stats_update_effect ⟨[10, 20, 30, 40, 50, 60], 7⟩ 9 0 rfl).2 (by decide)
  exact ⟨h.1, h.2 (by decide), h3⟩

/-- Claim C8 is contradicted by the code: `save_stats` never checks the
handle returned by `fopen` and returns 1 unconditionally, so a failed write
is reported as success (the claim — and the function's own documentation —
requires a zero return on failure). -/
theorem save_stats_return_ignores_failure :
    save_stats_return false = 1 ∧ save_stats_return true = 1 ∧ save_stats_return false ≠ 0 :=
  ⟨rfl, rfl, by decide⟩

/-- Counterexample to claim C9: with `num_attempts = 0` the win branch is
indeed selected, but the unsigned subscript `num_attempts - 1` wraps to
2^32 - 1, far beyond the six win counters — the access is out of bounds,
not in bounds as the claim asserts for every unsigned argument. -/
theorem save_stats_zero_attempts_out_of_bounds :
    win_index 0 = 4294967295
    ∧ ¬ win_index 0 < MAX_NUM_ATTEMPTS
    ∧ save_stats_update
        { wins_per_num_attempts := [0, 0, 0, 0, 0, 0], num_missed_words := 0 } 0 = none :=
  ⟨rfl, by decide, rfl⟩

/-- Claim C9 amended: for every unsigned attempt count of an actual game
outcome (`1 ≤ num_attempts < 2^32`) the update touches only valid storage:
the result is defined, and in the win branch (taken when
`num_attempts ≤ MAX_NUM_ATTEMPTS`) the subscript is `num_attempts - 1`,
inside the bounds `0..MAX_NUM_ATTEMPTS-1`. -/
theorem save_stats_update_inbounds (stats : player_stats_t) (k : Nat)
    (hlen : stats.wins_per_num_attempts.length = MAX_NUM_ATTEMPTS)
    (h1 : 1 ≤ k) (h2 : k < UINT_MAX_SUCC) :
    (save_stats_update stats k).isSome = true
    ∧ (k ≤ MAX_NUM_ATTEMPTS → win_index k = k - 1 ∧ k - 1 < MAX_NUM_ATTEMPTS) := by
  have hwin : win_index k = k - 1 := win_index_eq k h1 h2
  by_cases hk : k > MAX_NUM_ATTEMPTS
  · constructor
    · simp [save_stats_update, hk]
    · intro hle
      omega
  · have hlt : win_index k < stats.wins_per_num_attempts.length := by
      rw [hwin, hlen]
      simp only [MAX_NUM_ATTEMPTS] at hk ⊢
      omega
    constructor
    · rw [save_stats_update_win stats k hk hlt]
      rfl
    · intro hle
      refine ⟨hwin, ?_⟩
      simp only [MAX_NUM_ATTEMPTS] at hk ⊢
      omega

/-- Witness for the amended C9 at attempt count 3. -/
theorem save_stats_update_inbounds_witness :
    (save_stats_update
        { wins_per_num_attempts := [0, 0, 0, 0, 0, 0], num_missed_words := 0 } 3).isSome = true
    ∧ (win_index 3 = 2 ∧ 2 < MAX_NUM_ATTEMPTS) := by
  have h := save_stats_update_inbounds ⟨[0, 0, 0, 0, 0, 0], 0⟩ 3 rfl (by decide) (by decide)
  exact ⟨h.1, h.2 (by decide)⟩

end Yorkle
